/-
Verification of the speaker-attribution engine of the meeting-assistant
repository (scripts/whisper_pyannote_helper.py).

The Python module is shallowly embedded below: transcript segments carry
rational time stamps, texts are Lean strings, and the Python string
operations used by the detectors (strip / lower / split / substring test)
are modelled by executable functions on the underlying character lists.
Every definition mirrors the corresponding Python function; the theorems
at the end of the file settle the specification claims.
-/
import Mathlib

/-! ### Python string primitives

`str.strip`, `str.rstrip`, `str.lower`, `str.split()` (whitespace split
dropping empty fields), `in` (substring test), `startswith`, `endswith`. -/

/-- Python `str.lower` (ASCII case folding, as used by the source texts). -/
def pyLower (s : String) : String :=
  String.mk (s.data.map Char.toLower)

/-- Python `str.strip`: remove leading and trailing whitespace. -/
def pyStrip (s : String) : String :=
  String.mk (((s.data.dropWhile Char.isWhitespace).reverse.dropWhile
      Char.isWhitespace).reverse)

/-- Python `str.rstrip`: remove trailing whitespace. -/
def pyRstrip (s : String) : String :=
  String.mk ((s.data.reverse.dropWhile Char.isWhitespace).reverse)

/-- Worker for `pyWords`: accumulate the current (reversed) word. -/
def pyWordsAux : List Char → List Char → List String
  | [], acc => if acc.isEmpty then [] else [String.mk acc.reverse]
  | c :: cs, acc =>
    if c.isWhitespace then
      if acc.isEmpty then pyWordsAux cs []
      else String.mk acc.reverse :: pyWordsAux cs []
    else pyWordsAux cs (c :: acc)

/-- Python `str.split()` with no separator: split on whitespace runs,
dropping empty fields. -/
def pyWords (s : String) : List String :=
  pyWordsAux s.data []

/-- Worker for `pyContains`: does `pat` occur as a prefix of some suffix? -/
def pyContainsAux (pat : List Char) : List Char → Bool
  | [] => pat.isEmpty
  | c :: cs => pat.isPrefixOf (c :: cs) || pyContainsAux pat cs

/-- Python `pat in text`: substring containment. -/
def pyContains (text pat : String) : Bool :=
  pyContainsAux pat.data text.data

/-- Python `str.startswith`. -/
def pyStartsWith (s pre : String) : Bool :=
  pre.data.isPrefixOf s.data

/-- Python `str.endsWith`. -/
def pyEndsWith (s suf : String) : Bool :=
  suf.data.isSuffixOf s.data

/-! ### Data model

A Whisper transcript segment (`result["segments"][i]`): keys `start`,
`end`, `text` and, optionally, `confidence` (read with
`segment.get("confidence", 0.8)` at conversion time).  Machine floats are
modelled by rationals. -/

structure Segment where
  start : ℚ
  end_ : ℚ
  text : String
  confidence : Option ℚ
deriving DecidableEq

/-- A segment the detector has labeled: `segment.copy()` plus a
`speaker_id` entry. -/
structure LabeledSegment where
  seg : Segment
  speaker_id : String
deriving DecidableEq

/-- The output dictionaries built by `process_audio` (`start_time`,
`end_time`, `speaker_id`, `text`, `confidence`, `language`). -/
structure FinalSegment where
  start_time : ℚ
  end_time : ℚ
  speaker_id : String
  text : String
  confidence : ℚ
  language : String
deriving DecidableEq

/-- An acoustic diarization turn (from `diarization.itertracks`). -/
structure Turn where
  start : ℚ
  end_ : ℚ
  speaker : String
deriving DecidableEq

/-- `current_speaker = 2 if current_speaker == 1 else 1`. -/
def flipSpeaker (n : ℕ) : ℕ :=
  if n = 1 then 2 else 1

/-- `f"Speaker_{current_speaker}"`. -/
def speakerLabel (n : ℕ) : String :=
  "Speaker_" ++ toString n

/-! ### simple_speaker_change_detection -/

/-- Interjection lexicon of `simple_speaker_change_detection`. -/
def simpleInterjections : List String :=
  ["yeah", "yes", "no", "okay", "ok", "right", "exactly", "true", "sure",
   "well", "so", "but", "and", "actually", "really", "definitely",
   "absolutely", "totally", "completely", "hmm", "uh", "um", "ah"]

/-- The `should_change_speaker` disjunction of
`simple_speaker_change_detection` for segment `cur` preceded by `prev`. -/
def simpleChange (silence_threshold : ℚ) (prev cur : Segment) : Bool :=
  let gap := cur.start - prev.end_
  let segment_duration := cur.end_ - cur.start
  let prev_duration := prev.end_ - prev.start
  let segment_text := pyLower (pyStrip cur.text)
  let ws := pyWords segment_text
  let first_word := ws.headD ""
  decide (gap > silence_threshold) ||
  (decide (segment_duration < 3) &&
    (simpleInterjections.contains first_word ||
     (ws.take 2).any (fun w => simpleInterjections.contains w))) ||
  (decide (gap > 3/10) && decide (prev_duration > 1))

/-- Loop of `simple_speaker_change_detection` from segment index 1 on,
carrying `current_speaker` and the previous segment. -/
def simpleAux (silence_threshold : ℚ) :
    ℕ → Segment → List Segment → List LabeledSegment
  | _, _, [] => []
  | speaker, prev, cur :: rest =>
    if simpleChange silence_threshold prev cur then
      ⟨cur, speakerLabel (flipSpeaker speaker)⟩ ::
        simpleAux silence_threshold (flipSpeaker speaker) cur rest
    else
      ⟨cur, speakerLabel speaker⟩ :: simpleAux silence_threshold speaker cur rest

/-- `simple_speaker_change_detection(segments, silence_threshold)`.
(The unused `pitch_change_threshold` parameter is omitted.) -/
def simple_speaker_change_detection
    (segments : List Segment) (silence_threshold : ℚ) : List LabeledSegment :=
  match segments with
  | [] => []
  | s :: rest => ⟨s, speakerLabel 1⟩ :: simpleAux silence_threshold 1 s rest

/-! ### advanced_speaker_change_detection -/

/-- Interjection lexicon of `advanced_speaker_change_detection`. -/
def advancedInterjections : List String :=
  ["yeah", "yes", "yep", "yup", "no", "nope", "okay", "ok", "right",
   "exactly", "true", "sure", "well", "so", "but", "and", "actually",
   "really", "definitely", "absolutely", "totally", "completely", "hmm",
   "uh", "um", "ah", "oh", "hey", "alright", "all right", "perfect",
   "great", "nice", "cool", "awesome", "into the weeds", "perf"]

/-- Question-word lexicon of `advanced_speaker_change_detection`. -/
def advancedQuestionWords : List String :=
  ["what", "how", "why", "when", "where", "who", "which", "can", "could",
   "would", "should", "do", "does", "did", "is", "are", "was", "were"]

/-- First pass of `advanced_speaker_change_detection`: is index `i`
(a segment `cur` preceded by `prev`) a potential change point? -/
def advancedChange (prev cur : Segment) : Bool :=
  let gap := cur.start - prev.end_
  let current_text := pyLower (pyStrip cur.text)
  let prev_text := pyLower (pyStrip prev.text)
  let current_words := pyWords current_text
  let prev_words := pyWords prev_text
  let current_duration := cur.end_ - cur.start
  decide (gap > 1/2) ||
  (decide (current_duration < 4) && decide (current_words.length ≤ 8) &&
    advancedInterjections.contains (current_words.headD "")) ||
  (pyEndsWith prev_text "?" ||
    (prev_words.take 3).any (fun w => advancedQuestionWords.contains w)) ||
  (decide (current_duration < 2) && decide (current_words.length ≤ 3)) ||
  ((["by the way", "speaking of", "all right", "enough of that"].any
      (fun p => pyContains current_text p)) ||
    advancedInterjections.any (fun p => pyContains current_text p)) ||
  (["scott", "wes", "west"].any (fun p => pyContains current_text p))

/-- Second pass of `advanced_speaker_change_detection` from index 1 on:
flip at a change point only when `time_since_change` exceeds
`min_speaker_duration`. -/
def advancedAux (min_speaker_duration : ℚ) :
    ℕ → ℚ → Segment → List Segment → List LabeledSegment
  | _, _, _, [] => []
  | speaker, lastChange, prev, cur :: rest =>
    if advancedChange prev cur &&
        decide (cur.start - lastChange > min_speaker_duration) then
      ⟨cur, speakerLabel (flipSpeaker speaker)⟩ ::
        advancedAux min_speaker_duration (flipSpeaker speaker) cur.start cur rest
    else
      ⟨cur, speakerLabel speaker⟩ ::
        advancedAux min_speaker_duration speaker lastChange cur rest

/-- `advanced_speaker_change_detection(segments, min_speaker_duration)`. -/
def advanced_speaker_change_detection
    (segments : List Segment) (min_speaker_duration : ℚ) : List LabeledSegment :=
  match segments with
  | [] => []
  | s :: rest =>
    ⟨s, speakerLabel 1⟩ :: advancedAux min_speaker_duration 1 0 s rest

/-! ### balanced_speaker_detection -/

/-- `clear_speaker_changes` phrase list of `balanced_speaker_detection`. -/
def clearSpeakerChanges : List String :=
  ["into the weeds",
   "yeah. perf",
   "well, i use typescript and i have bugs",
   "by the way, speaking of really good",
   "all right. enough of that",
   "you want to go first",
   "a string literal type is a"]

/-- `topic_shifts` lexicon of `balanced_speaker_detection`. -/
def topicShifts : List String :=
  ["by the way", "speaking of", "all right", "alright", "enough of that",
   "anyway", "anyways", "actually", "you know what", "let me tell you"]

/-- `responses` lexicon of `balanced_speaker_detection`. -/
def balancedResponses : List String :=
  ["yeah", "yes", "well", "oh", "no", "right", "exactly", "true", "sure",
   "okay", "ok", "perfect", "great", "nice"]

/-- `question_words` lexicon of `balanced_speaker_detection`. -/
def balancedQuestionWords : List String :=
  ["how", "what", "why", "when", "where", "who", "which", "can", "could",
   "would", "should", "do", "does", "did", "is", "are"]

/-- Closed list of terse responses in rule 6 of
`balanced_speaker_detection`. -/
def terseResponses : List String :=
  ["yeah.", "yes.", "yeah", "yes", "well.", "oh.", "right.", "perf.", "perf"]

/-- The `should_change_speaker` condition of `balanced_speaker_detection`
for segment `cur` preceded by `prev`, given the running
`last_change_time`.  Rules 1-8 are individually guarded by
`not should_change_speaker` in the source, so the result is their
disjunction (rule order only affects the diagnostic `reason` string). -/
def balancedChange (lastChange : ℚ) (prev cur : Segment) : Bool :=
  let text := pyLower (pyStrip cur.text)
  let ws := pyWords text
  let duration := cur.end_ - cur.start
  let gap := cur.start - prev.end_
  let prev_text := pyLower (pyStrip prev.text)
  let time_since_change := cur.start - lastChange
  -- Rule 1: clear speaker change phrases
  (clearSpeakerChanges.any (fun p => pyContains text p)) ||
  -- Rule 2: short interjections after gaps
  (decide (duration < 3) && balancedResponses.contains (ws.headD "") &&
    decide (¬ ws.isEmpty) && decide (gap > 3/10) &&
    decide (time_since_change > 1)) ||
  -- Rule 3: contradictory statements
  (pyStartsWith text "well" && decide (gap > 1/5) &&
    decide (time_since_change > 1)) ||
  -- Rule 4: topic transitions
  (topicShifts.any (fun t => pyContains text t && decide (gap > 3/10) &&
    decide (time_since_change > 3/2))) ||
  -- Rule 5: question/answer patterns
  ((pyEndsWith prev_text "?" ||
      ((pyWords prev_text).take 3).any
        (fun w => balancedQuestionWords.contains w)) &&
    decide (gap > 1/5) && decide (time_since_change > 1)) ||
  -- Rule 6: very short responses
  (decide (duration < 2) && decide (ws.length ≤ 3) &&
    terseResponses.contains (pyStrip text) &&
    decide (time_since_change > 2) && decide (gap > 1/5)) ||
  -- Rule 7: name mentions
  ((["scott", "wes", "west"].any (fun n => pyContains text n)) &&
    decide (time_since_change > 1)) ||
  -- Rule 8: significant gaps with substantial previous content
  (decide (gap > 8/10) && decide (prev.end_ - prev.start > 2) &&
    decide (time_since_change > 3))

/-- Loop of `balanced_speaker_detection` from index 1 on, carrying
`current_speaker`, `last_change_time` and the previous segment. -/
def balancedAux : ℕ → ℚ → Segment → List Segment → List LabeledSegment
  | _, _, _, [] => []
  | speaker, lastChange, prev, cur :: rest =>
    if balancedChange lastChange prev cur then
      ⟨cur, speakerLabel (flipSpeaker speaker)⟩ ::
        balancedAux (flipSpeaker speaker) cur.start cur rest
    else
      ⟨cur, speakerLabel speaker⟩ :: balancedAux speaker lastChange cur rest

/-- `balanced_speaker_detection(segments)`.  At index 0 no rule is
evaluated (`i > 0` guard), so the first segment keeps speaker 1 and
`last_change_time` stays 0. -/
def balanced_speaker_detection (segments : List Segment) : List LabeledSegment :=
  match segments with
  | [] => []
  | s :: rest => ⟨s, speakerLabel 1⟩ :: balancedAux 1 0 s rest

/-! ### combine_consecutive_segments -/

/-- The same-speaker update of `combine_consecutive_segments`: extend
`end_time`, join texts with `rstrip` / `strip` and one space, and average
the accumulated confidence with the incoming one. -/
def mergeSeg (cur s : FinalSegment) : FinalSegment :=
  { cur with
    end_time := s.end_time
    text := pyRstrip cur.text ++ " " ++ pyStrip s.text
    confidence := (cur.confidence + s.confidence) / 2 }

/-- Loop of `combine_consecutive_segments`, carrying the open
`current_segment`. -/
def combineAux (cur : FinalSegment) : List FinalSegment → List FinalSegment
  | [] => [cur]
  | s :: rest =>
    if cur.speaker_id = s.speaker_id then combineAux (mergeSeg cur s) rest
    else cur :: combineAux s rest

/-- `combine_consecutive_segments(segments)`. -/
def combine_consecutive_segments : List FinalSegment → List FinalSegment
  | [] => []
  | s :: rest => combineAux s rest

/-! ### process_audio -/

/-- `len(set(seg["speaker_id"] for seg in enhanced_segments))` over
detector output. -/
def speakerCountL (l : List LabeledSegment) : ℕ :=
  (l.map (fun s => s.speaker_id)).toFinset.card

/-- `len(set(seg["speaker_id"] for seg in segments))` over final
segments. -/
def speakerCountF (l : List FinalSegment) : ℕ :=
  (l.map (fun s => s.speaker_id)).toFinset.card

/-- Conversion of a labeled segment to the final output format in the
heuristic fallback branch of `process_audio`. -/
def toFinal (language : String) (ls : LabeledSegment) : FinalSegment :=
  { start_time := ls.seg.start
    end_time := ls.seg.end_
    speaker_id := ls.speaker_id
    text := pyStrip ls.seg.text
    confidence := ls.seg.confidence.getD (8/10)
    language := language }

/-- The inner loop of the acoustic branch of `process_audio`: scan all
diarization turns keeping the `(speaker_id, best_overlap)` pair, updating
whenever a turn's positive overlap strictly exceeds the best so far. -/
def bestTurnFold (seg : Segment) : List Turn → String × ℚ → String × ℚ
  | [], acc => acc
  | turn :: ts, (spk, best) =>
    let overlap_start := max seg.start turn.start
    let overlap_end := min seg.end_ turn.end_
    if overlap_start < overlap_end then
      if overlap_end - overlap_start > best then
        bestTurnFold seg ts ("Speaker_" ++ turn.speaker, overlap_end - overlap_start)
      else bestTurnFold seg ts (spk, best)
    else bestTurnFold seg ts (spk, best)

/-- Speaker label the acoustic branch of `process_audio` assigns to one
transcript segment (`speaker_id = "Unknown"`, `best_overlap = 0.0`
initially). -/
def assignSpeaker (seg : Segment) (turns : List Turn) : String :=
  (bestTurnFold seg turns ("Unknown", 0)).1

/-- The output record the acoustic branch of `process_audio` builds for
one transcript segment. -/
def acousticFinal (language : String) (turns : List Turn) (seg : Segment) :
    FinalSegment :=
  { start_time := seg.start
    end_time := seg.end_
    speaker_id := assignSpeaker seg turns
    text := pyStrip seg.text
    confidence := seg.confidence.getD (8/10)
    language := language }

/-- The transcription engine's result consumed by `process_audio`:
`result["segments"]`, `result["language"]`, `result["duration"]`. -/
structure TranscriptionResult where
  segments : List Segment
  language : String
  duration : ℚ
deriving DecidableEq

/-- The dictionary `process_audio` returns. -/
structure DiarizationOutput where
  segments : List FinalSegment
  total_duration : ℚ
  language : String
  diarization_used : Bool
  num_speakers : ℕ
deriving DecidableEq

/-- `process_audio`, after transcription.  The acoustic diarization
attempt is modelled by an `Option`: `some turns` is a successful pipeline
invocation, `none` covers both an absent HuggingFace token and any
exception raised by the PyAnnote pipeline (both lead to the same
`diarization_success = False` fallback, so the failure never
propagates). -/
def process_audio (res : TranscriptionResult) (acoustic : Option (List Turn)) :
    DiarizationOutput :=
  match acoustic with
  | some turns =>
    let segments := res.segments.map (acousticFinal res.language turns)
    { segments := segments
      total_duration := res.duration
      language := res.language
      diarization_used := true
      num_speakers := speakerCountF segments }
  | none =>
    let enhanced := balanced_speaker_detection res.segments
    let speaker_count := speakerCountL enhanced
    let enhanced :=
      if speaker_count = 1 then advanced_speaker_change_detection res.segments 1
      else enhanced
    let speaker_count :=
      if speaker_count = 1 then speakerCountL enhanced else speaker_count
    let enhanced :=
      if speaker_count = 1 then simple_speaker_change_detection res.segments (8/10)
      else enhanced
    let segments := enhanced.map (toFinal res.language)
    let segments := combine_consecutive_segments segments
    { segments := segments
      total_duration := res.duration
      language := res.language
      diarization_used := false
      num_speakers := speakerCountF segments }

/-- The heuristic tiers, in escalation order. -/
inductive Tier where
  | simple
  | advanced
  | balanced
deriving DecidableEq

/-- The heuristic change-point detector, parameterized by tier, with the
thresholds `process_audio` uses. -/
def detect : Tier → List Segment → List LabeledSegment
  | .simple, segments => simple_speaker_change_detection segments (8/10)
  | .advanced, segments => advanced_speaker_change_detection segments 1
  | .balanced, segments => balanced_speaker_detection segments

/-! ### Run decomposition of the merger (used to state the pipeline
invariants) -/

/-- Collapse one run of same-speaker segments, exactly as the merger's
same-speaker updates do. -/
def collapseRun (a : FinalSegment) (ts : List FinalSegment) : FinalSegment :=
  ts.foldl mergeSeg a

/-- Worker for `runs`: the current run is `a` (its head) together with
the accumulator `acc` (the further members so far, in order). -/
def runsAux (a : FinalSegment) (acc : List FinalSegment) :
    List FinalSegment → List (FinalSegment × List FinalSegment)
  | [] => [(a, acc)]
  | b :: l =>
    if a.speaker_id = b.speaker_id then runsAux a (acc ++ [b]) l
    else (a, acc) :: runsAux b [] l

/-- Decompose a list into maximal consecutive runs of equal
`speaker_id`, each given by its head and the remaining members. -/
def runs : List FinalSegment → List (FinalSegment × List FinalSegment)
  | [] => []
  | a :: l => runsAux a [] l

/-- The claim's overlap formula,
`max(0, min(segment.end, turn.end) - max(segment.start, turn.start))`. -/
def overlapDuration (seg : Segment) (turn : Turn) : ℚ :=
  max 0 (min seg.end_ turn.end_ - max seg.start turn.start)

/-- Maximal `overlapDuration` over a list of turns (`0` when none). -/
def maxOverlap (seg : Segment) (turns : List Turn) : ℚ :=
  turns.foldr (fun t m => max (overlapDuration seg t) m) 0

/-! ### Detector lemmas: every tier relabels the input segments in place -/

theorem simpleAux_map_seg (st : ℚ) :
    ∀ (l : List Segment) (sp : ℕ) (prev : Segment),
      (simpleAux st sp prev l).map LabeledSegment.seg = l := by
  intro l
  induction l with
  | nil => intro sp prev; rfl
  | cons c l ih =>
    intro sp prev
    simp only [simpleAux]
    split <;> simp [ih]

theorem advancedAux_map_seg (msd : ℚ) :
    ∀ (l : List Segment) (sp : ℕ) (lc : ℚ) (prev : Segment),
      (advancedAux msd sp lc prev l).map LabeledSegment.seg = l := by
  intro l
  induction l with
  | nil => intro sp lc prev; rfl
  | cons c l ih =>
    intro sp lc prev
    simp only [advancedAux]
    split <;> simp [ih]

theorem balancedAux_map_seg :
    ∀ (l : List Segment) (sp : ℕ) (lc : ℚ) (prev : Segment),
      (balancedAux sp lc prev l).map LabeledSegment.seg = l := by
  intro l
  induction l with
  | nil => intro sp lc prev; rfl
  | cons c l ih =>
    intro sp lc prev
    simp only [balancedAux]
    split <;> simp [ih]

theorem simple_map_seg (segs : List Segment) (st : ℚ) :
    (simple_speaker_change_detection segs st).map LabeledSegment.seg = segs := by
  cases segs with
  | nil => rfl
  | cons s rest => simp [simple_speaker_change_detection, simpleAux_map_seg]

theorem advanced_map_seg (segs : List Segment) (msd : ℚ) :
    (advanced_speaker_change_detection segs msd).map LabeledSegment.seg = segs := by
  cases segs with
  | nil => rfl
  | cons s rest => simp [advanced_speaker_change_detection, advancedAux_map_seg]

theorem balanced_map_seg (segs : List Segment) :
    (balanced_speaker_detection segs).map LabeledSegment.seg = segs := by
  cases segs with
  | nil => rfl
  | cons s rest => simp [balanced_speaker_detection, balancedAux_map_seg]

/-- Claim C1: for every input sequence and every heuristic tier, the
detector returns exactly one labeled segment per input segment, in input
order, each carrying the input segment's fields (start, end, text)
unchanged together with a `speaker_id`; the empty input yields the empty
output. -/
theorem detect_preserves_segments (t : Tier) (segs : List Segment) :
    (detect t segs).map LabeledSegment.seg = segs
    ∧ (detect t segs).length = segs.length
    ∧ detect t [] = [] := by
  have hmap : (detect t segs).map LabeledSegment.seg = segs := by
    cases t with
    | simple => exact simple_map_seg segs (8/10)
    | advanced => exact advanced_map_seg segs 1
    | balanced => exact balanced_map_seg segs
  refine ⟨hmap, ?_, ?_⟩
  · have := congrArg List.length hmap
    simpa using this
  · cases t <;> rfl

/-! ### Merger lemmas -/

theorem mergeSeg_speaker_id (cur s : FinalSegment) :
    (mergeSeg cur s).speaker_id = cur.speaker_id := rfl

theorem mergeSeg_start_time (cur s : FinalSegment) :
    (mergeSeg cur s).start_time = cur.start_time := rfl

theorem combineAux_head :
    ∀ (l : List FinalSegment) (cur : FinalSegment),
      ∃ h t, combineAux cur l = h :: t ∧ h.speaker_id = cur.speaker_id := by
  intro l
  induction l with
  | nil => intro cur; exact ⟨cur, [], rfl, rfl⟩
  | cons s l ih =>
    intro cur
    by_cases hsp : cur.speaker_id = s.speaker_id
    · obtain ⟨h, t, heq, hs⟩ := ih (mergeSeg cur s)
      exact ⟨h, t, by simp [combineAux, if_pos hsp, heq],
        by rw [hs, mergeSeg_speaker_id]⟩
    · exact ⟨cur, combineAux s l, by simp [combineAux, if_neg hsp], rfl⟩

theorem combineAux_chain' :
    ∀ (l : List FinalSegment) (cur : FinalSegment),
      List.Chain' (fun a b => a.speaker_id ≠ b.speaker_id) (combineAux cur l) := by
  intro l
  induction l with
  | nil => intro cur; simp [combineAux]
  | cons s l ih =>
    intro cur
    by_cases hsp : cur.speaker_id = s.speaker_id
    · simpa [combineAux, if_pos hsp] using ih (mergeSeg cur s)
    · obtain ⟨h, t, heq, hs⟩ := combineAux_head l s
      simp only [combineAux, if_neg hsp, heq]
      rw [List.chain'_cons]
      exact ⟨by rw [hs]; exact hsp, by rw [← heq]; exact ih s⟩

theorem combineAux_of_chain' :
    ∀ (l : List FinalSegment) (cur : FinalSegment),
      List.Chain' (fun a b => a.speaker_id ≠ b.speaker_id) (cur :: l) →
      combineAux cur l = cur :: l := by
  intro l
  induction l with
  | nil => intro cur _; rfl
  | cons s l ih =>
    intro cur hch
    rw [List.chain'_cons] at hch
    simp only [combineAux, if_neg hch.1]
    rw [ih s hch.2]

/-- Claim C3: the merger is total with empty input mapping to empty
output; scanning left to right, a same-speaker neighbour extends the open
segment's end, joins the texts with `rstrip` + single space + `strip`,
and replaces the confidence by the arithmetic mean of the accumulated
confidence and the incoming one; a different speaker closes the open
segment; the final open segment is always appended. -/
theorem combine_merge_equations :
    combine_consecutive_segments [] = []
    ∧ (∀ (a : FinalSegment) (l : List FinalSegment),
        combine_consecutive_segments (a :: l) = combineAux a l)
    ∧ (∀ cur : FinalSegment, combineAux cur [] = [cur])
    ∧ (∀ (cur s : FinalSegment) (rest : List FinalSegment),
        cur.speaker_id = s.speaker_id →
        combineAux cur (s :: rest) =
          combineAux
            { start_time := cur.start_time
              end_time := s.end_time
              speaker_id := cur.speaker_id
              text := pyRstrip cur.text ++ " " ++ pyStrip s.text
              confidence := (cur.confidence + s.confidence) / 2
              language := cur.language } rest)
    ∧ (∀ (cur s : FinalSegment) (rest : List FinalSegment),
        cur.speaker_id ≠ s.speaker_id →
        combineAux cur (s :: rest) = cur :: combineAux s rest) := by
  refine ⟨rfl, fun a l => rfl, fun cur => rfl, ?_, ?_⟩
  · intro cur s rest h
    simp only [combineAux, if_pos h]
    rfl
  · intro cur s rest h
    simp only [combineAux, if_neg h]

/-- Witness for C3: the same-speaker and different-speaker equations at
concrete segments. -/
theorem combine_merge_equations_witness :
    (combineAux ⟨0, 1, "Speaker_1", "hi", 1, "en"⟩
        [⟨1, 2, "Speaker_1", "there", 0, "en"⟩]
      = combineAux
          { start_time := 0, end_time := 2, speaker_id := "Speaker_1",
            text := pyRstrip "hi" ++ " " ++ pyStrip "there",
            confidence := (1 + 0) / 2, language := "en" } [])
    ∧ (combineAux ⟨0, 1, "Speaker_1", "hi", 1, "en"⟩
        [⟨1, 2, "Speaker_2", "there", 0, "en"⟩]
      = ⟨0, 1, "Speaker_1", "hi", 1, "en"⟩ ::
          combineAux ⟨1, 2, "Speaker_2", "there", 0, "en"⟩ []) :=
  ⟨combine_merge_equations.2.2.2.1 _ _ _ rfl,
   combine_merge_equations.2.2.2.2 _ _ _ (by decide)⟩

/-- Claim C4: the merger is idempotent. -/
theorem combine_idempotent (l : List FinalSegment) :
    combine_consecutive_segments (combine_consecutive_segments l)
      = combine_consecutive_segments l := by
  cases l with
  | nil => rfl
  | cons a l =>
    show combine_consecutive_segments (combineAux a l) = combineAux a l
    obtain ⟨h, t, heq, _⟩ := combineAux_head l a
    rw [heq]
    show combineAux h t = h :: t
    apply combineAux_of_chain'
    rw [← heq]
    exact combineAux_chain' l a

theorem combineAux_map_speaker (l : List FinalSegment) :
    ∀ cur : FinalSegment,
      (combineAux cur l).map (fun s => s.speaker_id)
        = List.destutter' (· ≠ ·) cur.speaker_id
            (l.map (fun s => s.speaker_id)) := by
  induction l with
  | nil => intro cur; rfl
  | cons s l ih =>
    intro cur
    by_cases hsp : cur.speaker_id = s.speaker_id
    · simp only [combineAux, if_pos hsp, List.map_cons, List.destutter'_cons]
      rw [if_neg (by simp [hsp])]
      have := ih (mergeSeg cur s)
      rwa [mergeSeg_speaker_id] at this
    · simp only [combineAux, if_neg hsp, List.map_cons, List.destutter'_cons]
      rw [if_pos hsp, ih s]

/-- Claim C10: the merger's output has no two adjacent segments with the
same `speaker_id`, and its speaker sequence is the input's speaker
sequence with adjacent duplicates removed, each run represented by its
first member. -/
theorem combine_no_adjacent_equal (l : List FinalSegment) :
    List.Chain' (fun a b => a.speaker_id ≠ b.speaker_id)
      (combine_consecutive_segments l)
    ∧ (combine_consecutive_segments l).map (fun s => s.speaker_id)
        = (l.map (fun s => s.speaker_id)).destutter (· ≠ ·) := by
  cases l with
  | nil => exact ⟨List.chain'_nil, rfl⟩
  | cons a l =>
    refine ⟨combineAux_chain' l a, ?_⟩
    show (combineAux a l).map _ = _
    rw [List.map_cons, List.destutter_cons']
    exact combineAux_map_speaker l a

theorem combineAux_speaker_toFinset (l : List FinalSegment) :
    ∀ cur : FinalSegment,
      ((combineAux cur l).map (fun s => s.speaker_id)).toFinset
        = insert cur.speaker_id ((l.map (fun s => s.speaker_id)).toFinset) := by
  induction l with
  | nil => intro cur; simp [combineAux]
  | cons s l ih =>
    intro cur
    by_cases hsp : cur.speaker_id = s.speaker_id
    · simp only [combineAux, if_pos hsp, List.map_cons, List.toFinset_cons]
      have := ih (mergeSeg cur s)
      rw [mergeSeg_speaker_id] at this
      rw [this, ← hsp, Finset.insert_idem]
    · simp only [combineAux, if_neg hsp, List.map_cons, List.toFinset_cons]
      rw [ih s]

/-- Claim C5: merging neither loses nor adds speaker labels: the set of
distinct `speaker_id` values is preserved. -/
theorem combine_preserves_speakers (l : List FinalSegment) :
    ((combine_consecutive_segments l).map (fun s => s.speaker_id)).toFinset
      = (l.map (fun s => s.speaker_id)).toFinset := by
  cases l with
  | nil => rfl
  | cons a l =>
    show ((combineAux a l).map _).toFinset = _
    rw [combineAux_speaker_toFinset l a]
    simp

/-! ### Orchestrator policy -/

/-- Claim C2: with no credential or a failed acoustic attempt
(`acoustic = none`; the exception is absorbed, the fallback is total),
`process_audio` runs the balanced tier, escalates to the advanced tier
exactly when the balanced result has one distinct speaker, escalates to
the simple tier exactly when the advanced result still has one, accepts
the first tier with more than one distinct speaker (else the simple
tier's result), and passes the accepted output through the merger; a
successful acoustic attempt is returned segment-by-segment without
merging. -/
theorem process_audio_fallback_policy (res : TranscriptionResult) :
    ((process_audio res none).segments
      = combine_consecutive_segments
          ((if speakerCountL (balanced_speaker_detection res.segments) = 1 then
              (if speakerCountL (advanced_speaker_change_detection res.segments 1)
                  = 1 then
                simple_speaker_change_detection res.segments (8/10)
              else advanced_speaker_change_detection res.segments 1)
            else balanced_speaker_detection res.segments).map
            (toFinal res.language)))
    ∧ (process_audio res none).diarization_used = false
    ∧ (∀ turns : List Turn,
        (process_audio res (some turns)).segments
          = res.segments.map (acousticFinal res.language turns)
        ∧ (process_audio res (some turns)).diarization_used = true) := by
  refine ⟨?_, rfl, fun turns => ⟨rfl, rfl⟩⟩
  by_cases h1 : speakerCountL (balanced_speaker_detection res.segments) = 1
  · by_cases h2 :
        speakerCountL (advanced_speaker_change_detection res.segments 1) = 1
    · simp [process_audio, h1, h2]
    · simp [process_audio, h1, h2]
  · simp [process_audio, h1]

/-! ### The balanced tier's substantial-gap rule -/

/-- Claim C7: under the balanced tier, whenever the gap to the previous
segment exceeds 0.8s, the previous segment lasted more than 2.0s, and
more than 3.0s have passed since the last flip, the speaker label flips
at the current segment. -/
theorem balanced_substantial_gap_flips (speaker : ℕ) (lastChange : ℚ)
    (prev cur : Segment) (rest : List Segment)
    (hgap : cur.start - prev.end_ > 8/10)
    (hdur : prev.end_ - prev.start > 2)
    (htsc : cur.start - lastChange > 3) :
    (balancedAux speaker lastChange prev (cur :: rest)).head?.map
        (fun s => s.speaker_id)
      = some (speakerLabel (flipSpeaker speaker))
    ∧ flipSpeaker speaker ≠ speaker := by
  have hch : balancedChange lastChange prev cur = true := by
    unfold balancedChange
    simp only [Bool.or_eq_true, Bool.and_eq_true, decide_eq_true_eq]
    exact Or.inr ⟨⟨hgap, hdur⟩, htsc⟩
  constructor
  · simp [balancedAux, hch]
  · unfold flipSpeaker
    split <;> omega

/-- Witness for C7 at a concrete input (gap 1.0s, previous duration
3.0s, 4.0s since the last flip). -/
theorem balanced_substantial_gap_flips_witness :
    (balancedAux 1 0 ⟨0, 3, "hello my good friend", none⟩
        [⟨4, 5, "today we code", none⟩]).head?.map (fun s => s.speaker_id)
      = some (speakerLabel (flipSpeaker 1))
    ∧ flipSpeaker 1 ≠ 1 :=
  balanced_substantial_gap_flips 1 0 _ _ []
    (by with_unfolding_all decide) (by with_unfolding_all decide)
    (by with_unfolding_all decide)

/-! ### The end-to-end balanced scenario (claim C8) -/

/-- Counterexample for C8: on the claim's concrete three-segment input
the balanced tier does NOT flip at the second segment: "yeah" keeps the
first segment's label Speaker_1 (the gap is 0, failing the interjection
rule's `gap > 0.3` gate, and `time_since_change` is exactly 2.0, failing
the terse-response rule's strict `> 2.0` gate). -/
theorem balanced_scenario_second_segment_keeps_speaker :
    (((balanced_speaker_detection
        [⟨0, 2, "Hello everyone", none⟩, ⟨2, 23/10, "yeah", none⟩,
         ⟨5, 8, "So let's discuss the roadmap", none⟩]).map
        (fun s => s.speaker_id))[1]? = some "Speaker_1")
    ∧ (((balanced_speaker_detection
        [⟨0, 2, "Hello everyone", none⟩, ⟨2, 23/10, "yeah", none⟩,
         ⟨5, 8, "So let's discuss the roadmap", none⟩]).map
        (fun s => s.speaker_id))[0]? = some "Speaker_1") := by
  with_unfolding_all decide

/-- Claim C8 (amended): on the concrete input no speaker flip occurs at
the second segment (nor anywhere): all three segments are labeled
Speaker_1 under the balanced tier. -/
theorem balanced_scenario_labels :
    (balanced_speaker_detection
        [⟨0, 2, "Hello everyone", none⟩, ⟨2, 23/10, "yeah", none⟩,
         ⟨5, 8, "So let's discuss the roadmap", none⟩]).map
        (fun s => s.speaker_id)
      = ["Speaker_1", "Speaker_1", "Speaker_1"] := by
  with_unfolding_all decide

/-! ### Run decomposition lemmas -/

theorem collapseRun_cons (a t : FinalSegment) (ts : List FinalSegment) :
    collapseRun a (t :: ts) = collapseRun (mergeSeg a t) ts := rfl

theorem collapseRun_speaker_id :
    ∀ (ts : List FinalSegment) (a : FinalSegment),
      (collapseRun a ts).speaker_id = a.speaker_id := by
  intro ts
  induction ts with
  | nil => intro a; rfl
  | cons t ts ih =>
    intro a
    rw [collapseRun_cons, ih (mergeSeg a t), mergeSeg_speaker_id]

theorem collapseRun_start_time :
    ∀ (ts : List FinalSegment) (a : FinalSegment),
      (collapseRun a ts).start_time = a.start_time := by
  intro ts
  induction ts with
  | nil => intro a; rfl
  | cons t ts ih =>
    intro a
    rw [collapseRun_cons, ih (mergeSeg a t), mergeSeg_start_time]

theorem collapseRun_end_time :
    ∀ (ts : List FinalSegment) (a : FinalSegment),
      (collapseRun a ts).end_time = (ts.getLast?.getD a).end_time := by
  intro ts
  induction ts with
  | nil => intro a; rfl
  | cons t ts ih =>
    intro a
    rw [collapseRun_cons, ih (mergeSeg a t)]
    cases ts with
    | nil => rfl
    | cons u us =>
      cases h : (u :: us).getLast? with
      | none => simp at h
      | some x => simp [h]

theorem runsAux_bind :
    ∀ (l : List FinalSegment) (a : FinalSegment) (acc : List FinalSegment),
      (runsAux a acc l).flatMap (fun p => p.1 :: p.2) = a :: acc ++ l := by
  intro l
  induction l with
  | nil => intro a acc; simp [runsAux]
  | cons b l ih =>
    intro a acc
    by_cases hsp : a.speaker_id = b.speaker_id
    · rw [runsAux, if_pos hsp, ih a (acc ++ [b])]
      simp
    · rw [runsAux, if_neg hsp]
      simp only [List.flatMap_cons, ih b []]
      simp

theorem combineAux_eq_runsAux :
    ∀ (l : List FinalSegment) (a : FinalSegment) (acc : List FinalSegment),
      combineAux (collapseRun a acc) l
        = (runsAux a acc l).map (fun p => collapseRun p.1 p.2) := by
  intro l
  induction l with
  | nil => intro a acc; rfl
  | cons b l ih =>
    intro a acc
    by_cases hsp : a.speaker_id = b.speaker_id
    · have hc : (collapseRun a acc).speaker_id = b.speaker_id := by
        rw [collapseRun_speaker_id]; exact hsp
      have hm : mergeSeg (collapseRun a acc) b = collapseRun a (acc ++ [b]) := by
        simp [collapseRun, List.foldl_append]
      rw [combineAux, if_pos hc, hm, ih a (acc ++ [b]), runsAux, if_pos hsp]
    · have hc : ¬ (collapseRun a acc).speaker_id = b.speaker_id := by
        rw [collapseRun_speaker_id]; exact hsp
      rw [combineAux, if_neg hc, runsAux, if_neg hsp, List.map_cons]
      congr 1
      exact ih b []

theorem combine_eq_runs (l : List FinalSegment) :
    combine_consecutive_segments l
      = (runs l).map (fun p => collapseRun p.1 p.2) := by
  cases l with
  | nil => rfl
  | cons a l =>
    show combineAux a l = _
    have := combineAux_eq_runsAux l a []
    simpa [runs] using this

theorem combineAux_start_sublist :
    ∀ (l : List FinalSegment) (cur : FinalSegment),
      List.Sublist ((combineAux cur l).map (fun s => s.start_time))
        (cur.start_time :: l.map (fun s => s.start_time)) := by
  intro l
  induction l with
  | nil => intro cur; simp [combineAux]
  | cons s l ih =>
    intro cur
    by_cases hsp : cur.speaker_id = s.speaker_id
    · rw [combineAux, if_pos hsp, List.map_cons]
      have h1 := ih (mergeSeg cur s)
      rw [mergeSeg_start_time] at h1
      exact h1.trans (List.Sublist.cons₂ _ (List.sublist_cons_self _ _))
    · rw [combineAux, if_neg hsp, List.map_cons, List.map_cons]
      exact List.Sublist.cons₂ _ (ih s)

theorem combine_start_sublist (l : List FinalSegment) :
    List.Sublist ((combine_consecutive_segments l).map (fun s => s.start_time))
      (l.map (fun s => s.start_time)) := by
  cases l with
  | nil => exact List.Sublist.refl _
  | cons a l => exact combineAux_start_sublist l a

theorem combine_toFinal_start_sublist (enh : List LabeledSegment) (lang : String)
    (segs : List Segment) (h : enh.map LabeledSegment.seg = segs) :
    List.Sublist
      ((combine_consecutive_segments (enh.map (toFinal lang))).map
        (fun s => s.start_time))
      (segs.map (fun s => s.start)) := by
  have h1 := combine_start_sublist (enh.map (toFinal lang))
  have h2 : (enh.map (toFinal lang)).map (fun s => s.start_time)
      = segs.map (fun s => s.start) := by
    rw [← h]
    simp only [List.map_map]
    rfl
  rwa [h2] at h1

theorem process_fallback_start_sublist (res : TranscriptionResult) :
    List.Sublist ((process_audio res none).segments.map (fun s => s.start_time))
      (res.segments.map (fun s => s.start)) := by
  by_cases h1 : speakerCountL (balanced_speaker_detection res.segments) = 1
  · by_cases h2 :
        speakerCountL (advanced_speaker_change_detection res.segments 1) = 1
    · have := combine_toFinal_start_sublist
        (simple_speaker_change_detection res.segments (8/10)) res.language
        res.segments (simple_map_seg _ _)
      simpa [process_audio, h1, h2] using this
    · have := combine_toFinal_start_sublist
        (advanced_speaker_change_detection res.segments 1) res.language
        res.segments (advanced_map_seg _ _)
      simpa [process_audio, h1, h2] using this
  · have := combine_toFinal_start_sublist
      (balanced_speaker_detection res.segments) res.language
      res.segments (balanced_map_seg _)
    simpa [process_audio, h1] using this

/-- Claim C6 (amended): across the pipeline, order by start time is
preserved (output start times are an in-order sub-selection of the input
start times, both at the merger and end-to-end through the fallback
path), no segment is dropped (the merger partitions its input into
consecutive runs and emits exactly one segment per run), and every output
segment's time range is `[first contributor's start, last contributor's
end]` — the convex closure of the contributing inputs' ranges, not in
general a subset of their union. -/
theorem pipeline_order_and_ranges (l : List FinalSegment)
    (res : TranscriptionResult) :
    List.Sublist ((combine_consecutive_segments l).map (fun s => s.start_time))
      (l.map (fun s => s.start_time))
    ∧ (runs l).flatMap (fun p => p.1 :: p.2) = l
    ∧ combine_consecutive_segments l = (runs l).map (fun p => collapseRun p.1 p.2)
    ∧ (∀ p ∈ runs l,
        (collapseRun p.1 p.2).start_time = p.1.start_time
        ∧ (collapseRun p.1 p.2).end_time = (p.2.getLast?.getD p.1).end_time)
    ∧ List.Sublist ((process_audio res none).segments.map (fun s => s.start_time))
        (res.segments.map (fun s => s.start)) := by
  refine ⟨combine_start_sublist l, ?_, combine_eq_runs l, ?_, 
    process_fallback_start_sublist res⟩
  · cases l with
    | nil => rfl
    | cons a l => exact runsAux_bind l a []
  · intro p _
    exact ⟨collapseRun_start_time _ _, collapseRun_end_time _ _⟩

/-- Witness for C6 (amended) at a concrete run: two same-speaker
segments `[0,1]` and `[2,3]` collapse to a segment with the first one's
start and the last one's end. -/
theorem pipeline_order_and_ranges_witness :
    (collapseRun ⟨0, 1, "Speaker_1", "a", 1, "en"⟩
        [⟨2, 3, "Speaker_1", "b", 1, "en"⟩]).start_time
      = (⟨0, 1, "Speaker_1", "a", 1, "en"⟩ : FinalSegment).start_time
    ∧ (collapseRun ⟨0, 1, "Speaker_1", "a", 1, "en"⟩
        [⟨2, 3, "Speaker_1", "b", 1, "en"⟩]).end_time
      = (([⟨2, 3, "Speaker_1", "b", 1, "en"⟩] :
            List FinalSegment).getLast?.getD
          ⟨0, 1, "Speaker_1", "a", 1, "en"⟩).end_time :=
  (pipeline_order_and_ranges
      [⟨0, 1, "Speaker_1", "a", 1, "en"⟩, ⟨2, 3, "Speaker_1", "b", 1, "en"⟩]
      ⟨[], "en", 0⟩).2.2.2.1
    (⟨0, 1, "Speaker_1", "a", 1, "en"⟩, [⟨2, 3, "Speaker_1", "b", 1, "en"⟩])
    (by with_unfolding_all decide)

/-- Counterexample for C6 as stated: in the fallback pipeline on a
concrete three-segment input, the two same-speaker segments `[4,5]` and
`[5.5,6]` are merged into an output segment spanning `[4,6]`, whose range
contains the silence point `q = 5.25` that lies in no input segment's
range — so the output range is not a subset of the union of the
contributing input ranges. -/
theorem pipeline_range_union_counterexample :
    ¬ (∀ out ∈ (process_audio
          ⟨[⟨0, 3, "hello my good friend", none⟩, ⟨4, 5, "today we code", none⟩,
            ⟨11/2, 6, "more stuff here", none⟩], "en", 0⟩ none).segments,
        ∀ q : ℚ, out.start_time ≤ q → q ≤ out.end_time →
          ∃ inp ∈ ([⟨0, 3, "hello my good friend", none⟩,
              ⟨4, 5, "today we code", none⟩,
              ⟨11/2, 6, "more stuff here", none⟩] : List Segment),
            inp.start ≤ q ∧ q ≤ inp.end_) := by
  intro h
  have hmem : (⟨4, 6, "Speaker_2", "today we code more stuff here", 4/5, "en"⟩ :
      FinalSegment) ∈ (process_audio
        ⟨[⟨0, 3, "hello my good friend", none⟩, ⟨4, 5, "today we code", none⟩,
          ⟨11/2, 6, "more stuff here", none⟩], "en", 0⟩ none).segments := by
    with_unfolding_all decide
  have h2 := h _ hmem (21/4) (by with_unfolding_all decide)
    (by with_unfolding_all decide)
  revert h2
  with_unfolding_all decide

/-! ### Acoustic adapter lemmas -/

theorem maxOverlap_nonneg (seg : Segment) :
    ∀ ts : List Turn, 0 ≤ maxOverlap seg ts := by
  intro ts
  induction ts with
  | nil => exact le_refl 0
  | cons t ts ih => exact le_trans ih (le_max_right _ _)

theorem maxOverlap_cons (seg : Segment) (t : Turn) (ts : List Turn) :
    maxOverlap seg (t :: ts)
      = max (overlapDuration seg t) (maxOverlap seg ts) := rfl

/-- Characterization of the acoustic branch's inner loop: starting from a
nonnegative best overlap, the fold is the identity when no turn beats the
running best, and otherwise returns the label of the first turn achieving
the maximal overlap, together with that maximum. -/
theorem bestTurnFold_spec (seg : Segment) :
    ∀ (ts : List Turn) (spk : String) (best : ℚ), 0 ≤ best →
      (maxOverlap seg ts ≤ best → bestTurnFold seg ts (spk, best) = (spk, best))
      ∧ (best < maxOverlap seg ts →
          ∃ t₀, ts.find?
              (fun t => decide (overlapDuration seg t = maxOverlap seg ts))
              = some t₀
            ∧ bestTurnFold seg ts (spk, best)
              = ("Speaker_" ++ t₀.speaker, maxOverlap seg ts)) := by
  intro ts
  induction ts with
  | nil =>
    intro spk best hb
    exact ⟨fun _ => rfl, fun hlt => absurd hlt (not_lt.mpr hb)⟩
  | cons t ts ih =>
    intro spk best hb
    have hov0 : 0 ≤ overlapDuration seg t := le_max_left 0 _
    have hKcons : maxOverlap seg (t :: ts)
        = max (overlapDuration seg t) (maxOverlap seg ts) := rfl
    by_cases hgt : best < overlapDuration seg t
    · -- the head turn beats the running best: the loop updates
      have hd : max seg.start t.start < min seg.end_ t.end_ := by
        by_contra hcon
        push_neg at hcon
        have h0 : overlapDuration seg t = 0 := by
          unfold overlapDuration
          exact max_eq_left (by linarith)
        rw [h0] at hgt
        linarith
      have hov : overlapDuration seg t
          = min seg.end_ t.end_ - max seg.start t.start := by
        unfold overlapDuration
        exact max_eq_right (by linarith)
      have hstep : bestTurnFold seg (t :: ts) (spk, best)
          = bestTurnFold seg ts ("Speaker_" ++ t.speaker, overlapDuration seg t) := by
        simp only [bestTurnFold]
        rw [if_pos hd, if_pos (by rw [← hov]; exact hgt), ← hov]
      constructor
      · intro hle
        exfalso
        rw [hKcons] at hle
        have := le_max_left (overlapDuration seg t) (maxOverlap seg ts)
        linarith
      · intro _
        by_cases hcmp : maxOverlap seg ts ≤ overlapDuration seg t
        · have hmax : maxOverlap seg (t :: ts) = overlapDuration seg t := by
            rw [hKcons]; exact max_eq_left hcmp
          refine ⟨t, ?_, ?_⟩
          · rw [hmax]
            exact List.find?_cons_of_pos _ (by simp)
          · rw [hstep, hmax]
            exact (ih ("Speaker_" ++ t.speaker) (overlapDuration seg t) hov0).1 hcmp
        · push_neg at hcmp
          have hmax : maxOverlap seg (t :: ts) = maxOverlap seg ts := by
            rw [hKcons]; exact max_eq_right (le_of_lt hcmp)
          obtain ⟨t₀, hfind, heq⟩ :=
            (ih ("Speaker_" ++ t.speaker) (overlapDuration seg t) hov0).2 hcmp
          refine ⟨t₀, ?_, ?_⟩
          · rw [hmax]
            rw [List.find?_cons_of_neg _ (by simp; exact ne_of_lt hcmp)]
            exact hfind
          · rw [hstep, hmax, heq]
    · -- the head turn does not beat the running best: the loop keeps going
      push_neg at hgt
      have hstep : bestTurnFold seg (t :: ts) (spk, best)
          = bestTurnFold seg ts (spk, best) := by
        simp only [bestTurnFold]
        by_cases hd : max seg.start t.start < min seg.end_ t.end_
        · have hov : overlapDuration seg t
              = min seg.end_ t.end_ - max seg.start t.start := by
            unfold overlapDuration
            exact max_eq_right (by linarith)
          rw [if_pos hd, if_neg (by rw [← hov]; exact not_lt.mpr hgt)]
        · rw [if_neg hd]
      constructor
      · intro hle
        rw [hstep]
        refine (ih spk best hb).1 ?_
        rw [hKcons] at hle
        exact le_trans (le_max_right _ _) hle
      · intro hlt
        have hKgt : best < maxOverlap seg ts := by
          rcases le_total (maxOverlap seg ts) (overlapDuration seg t) with hc | hc
          · rw [hKcons, max_eq_left hc] at hlt; linarith
          · rw [hKcons, max_eq_right hc] at hlt; exact hlt
        have hmax : maxOverlap seg (t :: ts) = maxOverlap seg ts := by
          rw [hKcons]; exact max_eq_right (by linarith)
        obtain ⟨t₀, hfind, heq⟩ := (ih spk best hb).2 hKgt
        refine ⟨t₀, ?_, ?_⟩
        · rw [hmax]
          rw [List.find?_cons_of_neg _ (by simp; linarith)]
          exact hfind
        · rw [hstep, hmax, heq]

/-- Claim C9: the acoustic branch labels every transcript segment with
the speaker of the turn of maximal temporal overlap
(`max(0, min(segment.end, turn.end) - max(segment.start, turn.start))`),
the first-encountered turn winning ties, and labels the segment
`"Unknown"` when no turn has positive overlap. -/
theorem assignSpeaker_max_overlap (seg : Segment) (turns : List Turn) :
    (maxOverlap seg turns = 0 → assignSpeaker seg turns = "Unknown")
    ∧ (∀ t₀ : Turn, 0 < maxOverlap seg turns →
        turns.find?
            (fun t => decide (overlapDuration seg t = maxOverlap seg turns))
          = some t₀ →
        assignSpeaker seg turns = "Speaker_" ++ t₀.speaker)
    ∧ (∀ (res : TranscriptionResult) (turns2 : List Turn),
        (process_audio res (some turns2)).segments.map (fun s => s.speaker_id)
          = res.segments.map (fun s => assignSpeaker s turns2)) := by
  refine ⟨?_, ?_, ?_⟩
  · intro h0
    unfold assignSpeaker
    rw [(bestTurnFold_spec seg turns "Unknown" 0 le_rfl).1 (le_of_eq h0)]
  · intro t₀ hpos hfind
    obtain ⟨t₁, hfind₁, heq⟩ :=
      (bestTurnFold_spec seg turns "Unknown" 0 le_rfl).2 hpos
    rw [hfind₁] at hfind
    injection hfind with ht
    unfold assignSpeaker
    rw [heq, ht]
  · intro res turns2
    simp only [process_audio, List.map_map]
    rfl

/-- Witness for C9: in the spec's scenario (turns `A = [0,5]`,
`B = [5,10]` against the segment `[4.5, 10]`) the adapter picks `B`
(overlap 5 beats 0.5); a segment overlapping no turn gets `"Unknown"`. -/
theorem assignSpeaker_max_overlap_witness :
    assignSpeaker ⟨9/2, 10, "x", none⟩ [⟨0, 5, "A"⟩, ⟨5, 10, "B"⟩]
      = "Speaker_" ++ (⟨5, 10, "B"⟩ : Turn).speaker
    ∧ assignSpeaker ⟨0, 1, "x", none⟩ [⟨2, 3, "A"⟩] = "Unknown" :=
  ⟨(assignSpeaker_max_overlap ⟨9/2, 10, "x", none⟩
        [⟨0, 5, "A"⟩, ⟨5, 10, "B"⟩]).2.1
      ⟨5, 10, "B"⟩ (by with_unfolding_all decide) (by with_unfolding_all decide),
   (assignSpeaker_max_overlap ⟨0, 1, "x", none⟩ [⟨2, 3, "A"⟩]).1
      (by with_unfolding_all decide)⟩
